import Mathlib

/-!
Verification of the FileConverter wire protocol and connection-handling
layer (server.py / client.py), against the repository's specification.

The embedding models:
* big-endian fixed-width integer fields (`int.to_bytes` / `int.from_bytes`),
* UTF-8 encoding of metadata and file-name strings (`str.encode`),
* the byte stream delivered by a socket as a sequence of chunks, with
  `recv(n)` returning at most `n` bytes from the front of the next chunk,
* the client's response-decoding loop (`ConversionClient.send_request`),
* the server's response emission and error handling
  (`ConversionServer.handle_client`),
* the client's metadata construction and output-file naming, and the
  server's scratch-path construction.

Bytes are modelled as `Nat` (values < 256 for real bytes); strings use
Lean's `String` with an explicit UTF-8 encoder matching Python's
`str.encode()`.
-/

/-- Python `n.to_bytes(w, 'big')`: `w` bytes, most significant first.
(Python raises OverflowError for `n ≥ 256 ^ w`; theorems carry that bound.) -/
def toBytesBE : Nat → Nat → List Nat
  | 0, _ => []
  | w + 1, n => toBytesBE w (n / 256) ++ [n % 256]

/-- Python `int.from_bytes(bs, 'big')`; note `int.from_bytes(b'') = 0`. -/
def fromBytesBE (bs : List Nat) : Nat :=
  bs.foldl (fun a b => a * 256 + b) 0

theorem length_toBytesBE (w n : Nat) : (toBytesBE w n).length = w := by
  induction w generalizing n with
  | zero => rfl
  | succ k ih => simp [toBytesBE, ih]

theorem fromBytesBE_append_single (a : List Nat) (b : Nat) :
    fromBytesBE (a ++ [b]) = fromBytesBE a * 256 + b := by
  simp [fromBytesBE, List.foldl_append]

theorem fromBytesBE_toBytesBE (w n : Nat) (h : n < 256 ^ w) :
    fromBytesBE (toBytesBE w n) = n := by
  induction w generalizing n with
  | zero =>
    interval_cases n
    rfl
  | succ k ih =>
    have hdiv : n / 256 < 256 ^ k := by
      rw [Nat.div_lt_iff_lt_mul (by norm_num)]
      calc n < 256 ^ (k + 1) := h
        _ = 256 ^ k * 256 := by ring
    rw [toBytesBE, fromBytesBE_append_single, ih _ hdiv]
    omega

/-- UTF-8 encoding of a single code point (as produced by `str.encode()`). -/
def utf8EncodeChar (c : Nat) : List Nat :=
  if c < 0x80 then [c]
  else if c < 0x800 then [0xC0 + c / 64, 0x80 + c % 64]
  else if c < 0x10000 then [0xE0 + c / 4096, 0x80 + c / 64 % 64, 0x80 + c % 64]
  else [0xF0 + c / 262144, 0x80 + c / 4096 % 64, 0x80 + c / 64 % 64, 0x80 + c % 64]

/-- Python `s.encode()`: UTF-8 bytes of the string. -/
def utf8Encode (s : String) : List Nat :=
  (s.data.map (fun ch => utf8EncodeChar ch.toNat)).flatten

theorem utf8Encode_append (a b : String) :
    utf8Encode (a ++ b) = utf8Encode a ++ utf8Encode b := by
  simp [utf8Encode, String.data_append]

/-- For pure-ASCII strings every character encodes to one byte, so the
character count (Python `len(s)`) equals the encoded byte count. -/
theorem utf8Encode_length_of_ascii (s : String)
    (h : ∀ ch ∈ s.data, ch.toNat < 128) :
    (utf8Encode s).length = s.length := by
  have : ∀ l : List Char, (∀ ch ∈ l, ch.toNat < 128) →
      ((l.map (fun ch => utf8EncodeChar ch.toNat)).flatten).length = l.length := by
    intro l hl
    induction l with
    | nil => rfl
    | cons c cs ih =>
      have hc : c.toNat < 128 := hl c (by simp)
      have hcs : ∀ ch ∈ cs, ch.toNat < 128 := fun ch hm => hl ch (by simp [hm])
      rw [List.map_cons, List.flatten_cons, List.length_append, ih hcs]
      simp [utf8EncodeChar, hc]
      omega
  exact this s.data h

/-- The byte stream a socket delivers, as the sequence of byte groups that
successive `recv` calls can see; an exhausted stream models a closed peer. -/
abbrev ChunkStream := List (List Nat)

/-- One `sock.recv(n)` call: returns at most `n` bytes, taken from the front
of the next available chunk; returns `[]` when the peer has closed. -/
def socketRecv (n : Nat) : ChunkStream → List Nat × ChunkStream
  | [] => ([], [])
  | c :: rest =>
    let r := c.take n
    let rem := c.drop n
    (r, if rem = [] then rest else rem :: rest)

/-- A fully buffered stream holding exactly the bytes `bs` before close. -/
def ofBytes (bs : List Nat) : ChunkStream :=
  if bs = [] then [] else [bs]

theorem socketRecv_ofBytes (n : Nat) (bs : List Nat) :
    socketRecv n (ofBytes bs) = (bs.take n, ofBytes (bs.drop n)) := by
  by_cases h : bs = []
  · subst h
    simp [socketRecv, ofBytes]
  · simp only [ofBytes, if_neg h]
    rfl

theorem socketRecv_fst_length_le (n : Nat) (s : ChunkStream) :
    (socketRecv n s).1.length ≤ n := by
  cases s with
  | nil => simp [socketRecv]
  | cons c rest => simp [socketRecv]

/-- The exact-count payload-receive loop shared by `server.py` (receiving the
uploaded file) and `client.py` (receiving a result payload):
`while received < size: chunk = recv(min(4096, size - received));
 if not chunk: raise ConnectionError; ...`.
`fuel` bounds the number of iterations; every iteration that does not fail
consumes at least one byte, so `fuel = remaining` is always sufficient.
`none` models the raised `ConnectionError` (the stream closed early). -/
def recvFileLoop : Nat → Nat → ChunkStream → Option (List Nat × ChunkStream)
  | _, 0, s => some ([], s)
  | 0, _ + 1, _ => none
  | fuel + 1, r + 1, s =>
    let p := socketRecv (min 4096 (r + 1)) s
    if p.1 = [] then none
    else
      match recvFileLoop fuel (r + 1 - p.1.length) p.2 with
      | none => none
      | some (rest, s') => some (p.1 ++ rest, s')

theorem take_append_of_length (a b : List Nat) (n : Nat) (h : a.length = n) :
    (a ++ b).take n = a := by
  subst h
  simp [List.take_left]

theorem drop_append_of_length (a b : List Nat) (n : Nat) (h : a.length = n) :
    (a ++ b).drop n = b := by
  subst h
  simp [List.drop_left]

/-- On a fully buffered stream the payload loop returns exactly the requested
number of bytes when available, and fails when the stream is too short. -/
theorem recvFileLoop_ofBytes (fuel : Nat) :
    ∀ r bs, r ≤ fuel →
      recvFileLoop fuel r (ofBytes bs) =
        if r ≤ bs.length then some (bs.take r, ofBytes (bs.drop r)) else none := by
  induction fuel with
  | zero =>
    intro r bs hr
    interval_cases r
    simp [recvFileLoop]
  | succ f ih =>
    intro r bs hr
    match r with
    | 0 => simp [recvFileLoop]
    | r + 1 =>
      rw [recvFileLoop]
      rw [socketRecv_ofBytes]
      by_cases hbs : bs = []
      · subst hbs
        simp
      · have hbsl : 1 ≤ bs.length := by
          cases bs with
          | nil => exact absurd rfl hbs
          | cons x xs => simp
        set m := min 4096 (r + 1) with hm
        have hm1 : 1 ≤ m := le_min (by omega) (by omega)
        have hml : m ≤ r + 1 := Nat.min_le_right _ _
        have htl1 : 1 ≤ (bs.take m).length := by
          simp only [List.length_take]
          exact le_min hm1 hbsl
        have htl2 : (bs.take m).length ≤ m := by
          simp only [List.length_take]
          exact Nat.min_le_left _ _
        have htne : bs.take m ≠ [] := by
          intro hcon
          rw [hcon] at htl1
          simp at htl1
        simp only [if_neg htne]
        rw [ih (r + 1 - (bs.take m).length) (bs.drop m) (by omega)]
        by_cases hin : m ≤ bs.length
        · have hchm : (bs.take m).length = m := by
            simp only [List.length_take]
            exact Nat.min_eq_left hin
          rw [hchm]
          have hdl : (bs.drop m).length = bs.length - m := by simp
          by_cases hfits : r + 1 ≤ bs.length
          · have hc1 : r + 1 - m ≤ (bs.drop m).length := by omega
            rw [if_pos hc1, if_pos hfits]
            have htk : bs.take m ++ (bs.drop m).take (r + 1 - m) = bs.take (r + 1) := by
              rw [← List.take_add]
              congr 1
              omega
            have hdr : (bs.drop m).drop (r + 1 - m) = bs.drop (r + 1) := by
              rw [List.drop_drop]
              congr 1
              omega
            simp [htk, hdr]
          · have hc1 : ¬ (r + 1 - m ≤ (bs.drop m).length) := by omega
            rw [if_neg hc1, if_neg hfits]
        · have hbm : bs.length < m := by omega
          have hchm : (bs.take m).length = bs.length := by
            simp only [List.length_take]
            exact Nat.min_eq_right (by omega)
          rw [hchm]
          have hde : bs.drop m = [] := by
            apply List.eq_nil_of_length_eq_zero
            simp
            omega
          rw [hde]
          have hcond : ¬ (r + 1 - bs.length ≤ ([] : List Nat).length) := by
            simp only [List.length_nil]
            omega
          rw [if_neg hcond]
          have hfits : ¬ (r + 1 ≤ bs.length) := by omega
          rw [if_neg hfits]

/-- The payload loop, when it succeeds, returns exactly the requested count —
this is the exact-read guarantee the loops do provide. -/
theorem recvFileLoop_length (fuel : Nat) :
    ∀ r s d s', r ≤ fuel → recvFileLoop fuel r s = some (d, s') → d.length = r := by
  induction fuel with
  | zero =>
    intro r s d s' hr h
    interval_cases r
    simp [recvFileLoop] at h
    simp [← h.1]
  | succ f ih =>
    intro r s d s' hr h
    match r with
    | 0 =>
      simp [recvFileLoop] at h
      simp [← h.1]
    | r + 1 =>
      rw [recvFileLoop] at h
      by_cases hc : (socketRecv (min 4096 (r + 1)) s).1 = []
      · simp [hc] at h
      · simp only [if_neg hc] at h
        cases hrec : recvFileLoop f (r + 1 - (socketRecv (min 4096 (r + 1)) s).1.length)
            (socketRecv (min 4096 (r + 1)) s).2 with
        | none => rw [hrec] at h; exact absurd h (by simp)
        | some q =>
          rw [hrec] at h
          have hclen1 : 1 ≤ (socketRecv (min 4096 (r + 1)) s).1.length := by
            cases hcc : (socketRecv (min 4096 (r + 1)) s).1 with
            | nil => exact absurd hcc hc
            | cons x xs => simp [hcc]
          have hclen2 : (socketRecv (min 4096 (r + 1)) s).1.length ≤ min 4096 (r + 1) :=
            socketRecv_fst_length_le _ _
          have hq := ih (r + 1 - (socketRecv (min 4096 (r + 1)) s).1.length)
            (socketRecv (min 4096 (r + 1)) s).2 q.1 q.2 (by omega) (by rw [hrec])
          simp at h
          have hd : d = (socketRecv (min 4096 (r + 1)) s).1 ++ q.1 := by
            rw [← h.1]
          rw [hd]
          simp [hq]
          omega

/-- A result file as transmitted on the wire: name bytes and payload bytes.
(The server sends `file_name.encode()`; all names its handlers produce are
ASCII, so the 4-byte prefix `len(file_name)` equals the byte count.) -/
structure ResultFile where
  name : List Nat
  payload : List Nat
deriving DecidableEq, Repr

/-- The reserved error marker: `"ERROR:".encode()`. -/
def errorPrefixBytes : List Nat := utf8Encode "ERROR:"

/-- `file_name.startswith("ERROR:")` on the decoded name, checked at the
byte level (UTF-8 is prefix-compatible for the ASCII marker). -/
def isErrorName (name : List Nat) : Bool :=
  errorPrefixBytes.isPrefixOf name

/-- Outcome of the client's response-receiving loop in
`ConversionClient.send_request` (client.py). -/
inductive ClientOutcome where
  /-- the zero name-length terminator was seen: normal return -/
  | done
  /-- a name starting with `ERROR:` was seen: `raise RuntimeError(file_name)` -/
  | remoteErr (msg : List Nat)
  /-- `raise ConnectionError` (stream closed during a payload transfer) -/
  | closedMid
  /-- artifact of the fuel bound; never reached with adequate fuel -/
  | outOfFuel
deriving DecidableEq, Repr

/-- Result of a run of the client's receive loop: files written to the
output directory, the outcome, and the unread remainder of the stream. -/
structure ClientRun where
  written : List ResultFile
  outcome : ClientOutcome
  rest : ChunkStream
deriving DecidableEq, Repr

/-- The response-decoding loop of `ConversionClient.send_request`
(client.py, `while True:` over `recv`):
read 4 name-length bytes (`int.from_bytes` of whatever `recv(4)` returned,
0 — including an empty read — breaks the loop), read the name, fail on an
`ERROR:` name, read the 8 size bytes, then receive exactly `size` payload
bytes and write the file. `fuel` bounds the iterations. -/
def clientLoop : Nat → ChunkStream → List ResultFile → ClientRun
  | 0, s, acc => ⟨acc.reverse, .outOfFuel, s⟩
  | fuel + 1, s, acc =>
    let p := socketRecv 4 s
    let nameLen := fromBytesBE p.1
    if nameLen = 0 then ⟨acc.reverse, .done, p.2⟩
    else
      let q := socketRecv nameLen p.2
      if isErrorName q.1 then ⟨acc.reverse, .remoteErr q.1, q.2⟩
      else
        let w := socketRecv 8 q.2
        let size := fromBytesBE w.1
        match recvFileLoop size size w.2 with
        | none => ⟨acc.reverse, .closedMid, []⟩
        | some (payload, s') => clientLoop fuel s' (⟨q.1, payload⟩ :: acc)

/-- One record of the server's response stream
(`ConversionServer.handle_client`, send side). -/
inductive SRecord where
  /-- a converted output file: 4-byte name length, name, 8-byte size, payload -/
  | result (f : ResultFile)
  /-- the error record sent from the `except` block: 4-byte length + message -/
  | err (msg : List Nat)
  /-- the end-of-transmission marker `(0).to_bytes(4, 'big')` -/
  | term
deriving DecidableEq, Repr

/-- Wire bytes of one result file (server.py, "Send results" block). -/
def encodeResult (f : ResultFile) : List Nat :=
  toBytesBE 4 f.name.length ++ f.name ++ toBytesBE 8 f.payload.length ++ f.payload

/-- Wire bytes of a response record. -/
def recordBytes : SRecord → List Nat
  | .result f => encodeResult f
  | .err msg => toBytesBE 4 msg.length ++ msg
  | .term => toBytesBE 4 0

/-- Wire bytes of a record sequence. -/
def recordsBytes : List SRecord → List Nat
  | [] => []
  | r :: rs => recordBytes r ++ recordsBytes rs

/-- Outcome of one handled connection in `ConversionServer.handle_client`:
either the whole `try` block ran to completion (every output file followed
by the terminator was sent), or an exception interrupted it after some
prefix of the result records, in which case the `except` block sends a
single error record — itself best-effort (`errSendOk = false` models the
inner `except: pass` swallowing a failed error send). -/
inductive ConnOutcome where
  | completed (files : List ResultFile)
  | failed (sentSoFar : List ResultFile) (msg : List Nat) (errSendOk : Bool)
deriving DecidableEq, Repr

/-- Whether the exchange completed successfully. -/
def isCompleted : ConnOutcome → Bool
  | .completed _ => true
  | .failed _ _ _ => false

/-- The records the server puts on the wire for a connection
(server.py lines 136-173). -/
def connRecords : ConnOutcome → List SRecord
  | .completed fs => fs.map SRecord.result ++ [.term]
  | .failed pre msg ok => pre.map SRecord.result ++ (if ok then [.err msg] else [])

/-- The response byte stream for a connection. -/
def responseBytes (o : ConnOutcome) : List Nat :=
  recordsBytes (connRecords o)

/-- The keys of `self.conversion_handlers` (server.py `__init__`). -/
def conversionHandlerKeys : List String :=
  ["pdf2png", "png2jpg", "jpg2png", "img_grayscale", "img_resize"]

/-- The connection outcome as decided by the registry lookup in
`handle_client`: an unregistered conversion raises
`ValueError(f"Unsupported conversion: {conversion}")` before any result is
sent, and the `except` block sends `f"ERROR: {str(e)}".encode()`. -/
def dispatchOutcome (conversion : String) (handlerFiles : List ResultFile) : ConnOutcome :=
  if conversion ∈ conversionHandlerKeys then .completed handlerFiles
  else .failed [] (utf8Encode ("ERROR: Unsupported conversion: " ++ conversion)) true

/-- A result file as the server's handlers actually produce them: nonempty
non-`ERROR:` name, and name/payload sizes that fit their wire fields. -/
def GoodResult (f : ResultFile) : Prop :=
  f.name ≠ [] ∧ isErrorName f.name = false ∧
    f.name.length < 256 ^ 4 ∧ f.payload.length < 256 ^ 8

instance (f : ResultFile) : Decidable (GoodResult f) := by
  unfold GoodResult
  infer_instance

theorem recordsBytes_append (a b : List SRecord) :
    recordsBytes (a ++ b) = recordsBytes a ++ recordsBytes b := by
  induction a with
  | nil => rfl
  | cons r rs ih => simp [recordsBytes, ih, List.append_assoc]

theorem isPrefixOf_append_self (a b : List Nat) : a.isPrefixOf (a ++ b) = true := by
  induction a with
  | nil => simp [List.isPrefixOf]
  | cons x xs ih => simp [List.isPrefixOf, ih]

/-- Decoding one well-formed result record advances the loop by exactly that
record: the name and payload are recovered intact and the rest of the
stream is untouched. -/
theorem clientLoop_step (f : ResultFile) (tail : List Nat) (fuel : Nat)
    (acc : List ResultFile) (h : GoodResult f) :
    clientLoop (fuel + 1) (ofBytes (encodeResult f ++ tail)) acc
      = clientLoop fuel (ofBytes tail) (f :: acc) := by
  obtain ⟨hne, herr, hnlen, hplen⟩ := h
  have hnz : f.name.length ≠ 0 := by
    intro hc
    exact hne (List.eq_nil_of_length_eq_zero hc)
  have hB : encodeResult f ++ tail
      = toBytesBE 4 f.name.length ++
          (f.name ++ (toBytesBE 8 f.payload.length ++ (f.payload ++ tail))) := by
    simp [encodeResult, List.append_assoc]
  rw [hB]
  simp only [clientLoop]
  rw [socketRecv_ofBytes]
  rw [take_append_of_length _ _ 4 (length_toBytesBE 4 f.name.length)]
  rw [drop_append_of_length _ _ 4 (length_toBytesBE 4 f.name.length)]
  rw [fromBytesBE_toBytesBE 4 f.name.length hnlen]
  rw [if_neg hnz]
  rw [socketRecv_ofBytes]
  rw [take_append_of_length _ _ f.name.length rfl]
  rw [drop_append_of_length _ _ f.name.length rfl]
  rw [if_neg (by simp [herr])]
  rw [socketRecv_ofBytes]
  rw [take_append_of_length _ _ 8 (length_toBytesBE 8 f.payload.length)]
  rw [drop_append_of_length _ _ 8 (length_toBytesBE 8 f.payload.length)]
  rw [fromBytesBE_toBytesBE 8 f.payload.length hplen]
  rw [recvFileLoop_ofBytes f.payload.length f.payload.length (f.payload ++ tail) le_rfl]
  rw [if_pos (by simp)]
  rw [take_append_of_length _ _ f.payload.length rfl]
  rw [drop_append_of_length _ _ f.payload.length rfl]

/-- Decoding a stream that starts with the records of the files `fs` reaches
the rest of the stream having written exactly `fs`. -/
theorem clientLoop_records (fs : List ResultFile) :
    ∀ (fuel : Nat) (acc : List ResultFile) (rest : List Nat),
      (∀ f ∈ fs, GoodResult f) →
      clientLoop (fs.length + fuel)
          (ofBytes (recordsBytes (fs.map SRecord.result) ++ rest)) acc
        = clientLoop fuel (ofBytes rest) (fs.reverse ++ acc) := by
  induction fs with
  | nil =>
    intro fuel acc rest h
    simp [recordsBytes]
  | cons f fs ih =>
    intro fuel acc rest h
    have h1 : GoodResult f := h f (by simp)
    have hfs : ∀ g ∈ fs, GoodResult g := fun g hg => h g (by simp [hg])
    have hlen : (f :: fs).length + fuel = (fs.length + fuel) + 1 := by
      simp [List.length_cons]
      omega
    rw [hlen]
    have hrb : recordsBytes ((f :: fs).map SRecord.result) ++ rest
        = encodeResult f ++ (recordsBytes (fs.map SRecord.result) ++ rest) := by
      simp [recordsBytes, recordBytes, List.append_assoc]
    rw [hrb, clientLoop_step f _ _ _ h1, ih fuel (f :: acc) rest hfs]
    simp [List.reverse_cons, List.append_assoc]

/-- C1: Round-trip of the response framing: for every finite sequence of
result files produced by a handler (nonempty non-`ERROR:` names fitting the
4-byte field, payloads fitting the 8-byte field), the client's
response-decoding loop applied to the server's response encoding (4-byte
big-endian name length, name bytes, 8-byte big-endian size, payload bytes,
repeated, then a 4-byte zero terminator) writes exactly those names and
payloads, terminates normally, and leaves nothing unread. -/
theorem response_framing_roundTrip (fs : List ResultFile)
    (h : ∀ f ∈ fs, GoodResult f) :
    clientLoop (fs.length + 1) (ofBytes (responseBytes (ConnOutcome.completed fs))) []
      = ⟨fs, ClientOutcome.done, []⟩ := by
  have hr : responseBytes (ConnOutcome.completed fs)
      = recordsBytes (fs.map SRecord.result) ++ toBytesBE 4 0 := by
    unfold responseBytes connRecords
    rw [recordsBytes_append]
    simp [recordsBytes, recordBytes]
  rw [hr, clientLoop_records fs 1 [] (toBytesBE 4 0) h]
  have ht : toBytesBE 4 0 = [0, 0, 0, 0] := rfl
  rw [ht]
  rw [show (1 : Nat) = 0 + 1 from rfl]
  simp only [clientLoop]
  rw [socketRecv_ofBytes]
  simp [fromBytesBE, ofBytes]

theorem response_framing_roundTrip_witness :
    (∀ f ∈ [ResultFile.mk (utf8Encode "page_1.png") [9, 8, 7]], GoodResult f)
    ∧ clientLoop 2
        (ofBytes (responseBytes
          (ConnOutcome.completed [ResultFile.mk (utf8Encode "page_1.png") [9, 8, 7]]))) []
      = ⟨[ResultFile.mk (utf8Encode "page_1.png") [9, 8, 7]], ClientOutcome.done, []⟩ :=
  ⟨by decide, response_framing_roundTrip
    [ResultFile.mk (utf8Encode "page_1.png") [9, 8, 7]] (by decide)⟩

/-- C9: if the connection closes exactly at a record boundary (so the 4-byte
name-length read returns zero bytes, and `int.from_bytes(b'') = 0`), the
client's decoding loop treats the empty read as the zero-length terminator
and returns the files accumulated so far as a success, not a transport
error. -/
theorem close_at_boundary_is_success (fs : List ResultFile)
    (h : ∀ f ∈ fs, GoodResult f) :
    clientLoop (fs.length + 1) (ofBytes (recordsBytes (fs.map SRecord.result))) []
      = ⟨fs, ClientOutcome.done, []⟩ := by
  have hpad : recordsBytes (fs.map SRecord.result)
      = recordsBytes (fs.map SRecord.result) ++ [] := by simp
  rw [hpad, clientLoop_records fs 1 [] [] h]
  rw [show (1 : Nat) = 0 + 1 from rfl]
  simp only [clientLoop]
  have hnil : ofBytes [] = ([] : ChunkStream) := rfl
  rw [hnil]
  simp [socketRecv, fromBytesBE]

theorem close_at_boundary_is_success_witness :
    (∀ f ∈ [ResultFile.mk (utf8Encode "converted.jpg") [1, 2]], GoodResult f)
    ∧ clientLoop 2
        (ofBytes (recordsBytes
          ([ResultFile.mk (utf8Encode "converted.jpg") [1, 2]].map SRecord.result))) []
      = ⟨[ResultFile.mk (utf8Encode "converted.jpg") [1, 2]], ClientOutcome.done, []⟩ :=
  ⟨by decide, close_at_boundary_is_success
    [ResultFile.mk (utf8Encode "converted.jpg") [1, 2]] (by decide)⟩

set_option maxHeartbeats 800000 in
/-- C3: a request whose `conversion_type` is not a key of the registry makes
the server send the single `ErrorSignal` record
`"ERROR: Unsupported conversion: <type>"`, and the client's decoding loop
fails with that exact message having written no output file. -/
theorem unsupported_conversion_error (c : String) (handlerFiles : List ResultFile)
    (hreg : c ∉ conversionHandlerKeys)
    (hlen : (utf8Encode ("ERROR: Unsupported conversion: " ++ c)).length < 256 ^ 4) :
    connRecords (dispatchOutcome c handlerFiles)
        = [SRecord.err (utf8Encode ("ERROR: Unsupported conversion: " ++ c))]
    ∧ clientLoop 1 (ofBytes (responseBytes (dispatchOutcome c handlerFiles))) []
      = ⟨[], ClientOutcome.remoteErr (utf8Encode ("ERROR: Unsupported conversion: " ++ c)),
          []⟩ := by
  have hdo : dispatchOutcome c handlerFiles
      = ConnOutcome.failed [] (utf8Encode ("ERROR: Unsupported conversion: " ++ c)) true := by
    unfold dispatchOutcome
    rw [if_neg hreg]
  set msg := utf8Encode ("ERROR: Unsupported conversion: " ++ c) with hmsg
  have hsplit : msg
      = errorPrefixBytes ++ (utf8Encode " Unsupported conversion: " ++ utf8Encode c) := by
    rw [hmsg, utf8Encode_append]
    have hc31 : utf8Encode "ERROR: Unsupported conversion: "
        = errorPrefixBytes ++ utf8Encode " Unsupported conversion: " := by decide
    rw [hc31, List.append_assoc]
  have hpre : isErrorName msg = true := by
    rw [hsplit]
    exact isPrefixOf_append_self _ _
  have hmnz : msg.length ≠ 0 := by
    rw [hsplit, List.length_append]
    have h6 : errorPrefixBytes.length = 6 := by decide
    omega
  have hrb : responseBytes (dispatchOutcome c handlerFiles)
      = toBytesBE 4 msg.length ++ msg := by
    rw [hdo]
    unfold responseBytes connRecords
    simp [recordsBytes, recordBytes]
  refine ⟨by rw [hdo]; simp [connRecords], ?_⟩
  rw [hrb]
  rw [show (1 : Nat) = 0 + 1 from rfl]
  simp only [clientLoop]
  rw [socketRecv_ofBytes]
  rw [take_append_of_length _ _ 4 (length_toBytesBE 4 msg.length)]
  rw [drop_append_of_length _ _ 4 (length_toBytesBE 4 msg.length)]
  rw [fromBytesBE_toBytesBE 4 msg.length hlen]
  rw [if_neg hmnz]
  rw [socketRecv_ofBytes]
  rw [List.take_length, List.drop_length]
  rw [if_pos hpre]
  rfl

theorem unsupported_conversion_error_witness :
    "bmp2gif" ∉ conversionHandlerKeys
    ∧ clientLoop 1 (ofBytes (responseBytes (dispatchOutcome "bmp2gif" []))) []
      = ⟨[], ClientOutcome.remoteErr
          (utf8Encode ("ERROR: Unsupported conversion: " ++ "bmp2gif")), []⟩ :=
  ⟨by decide, (unsupported_conversion_error "bmp2gif" [] (by decide) (by decide)).2⟩

/-- Is a record the error record? -/
def isErrRecord : SRecord → Bool
  | .err _ => true
  | _ => false

/-- Is a record the zero-length terminator? -/
def isTermRecord : SRecord → Bool
  | .term => true
  | _ => false

theorem countP_map_result_eq_zero (p : SRecord → Bool)
    (hp : ∀ f, p (SRecord.result f) = false) (fs : List ResultFile) :
    (fs.map SRecord.result).countP p = 0 := by
  induction fs with
  | nil => rfl
  | cons f fs ih => simp [List.countP_cons, hp, ih]

/-- C4: the server's response record sequence for a handled connection
contains the zero-length terminator iff the exchange completed
successfully; it never contains both a terminator and an `ErrorSignal`; at
most one terminator is ever sent; and on failure at most one (best-effort)
`ErrorSignal` is sent. -/
theorem terminator_iff_completed (o : ConnOutcome) :
    (SRecord.term ∈ connRecords o ↔ isCompleted o = true)
    ∧ (connRecords o).countP isTermRecord ≤ 1
    ∧ (∀ m, SRecord.err m ∈ connRecords o → SRecord.term ∉ connRecords o)
    ∧ (connRecords o).countP isErrRecord ≤ 1 := by
  cases o with
  | completed fs =>
    refine ⟨?_, ?_, ?_, ?_⟩
    · simp [connRecords, isCompleted]
    · rw [connRecords, List.countP_append,
        countP_map_result_eq_zero isTermRecord (fun f => rfl) fs]
      simp [List.countP_cons, isTermRecord]
    · intro m hm
      exfalso
      rw [connRecords] at hm
      rcases List.mem_append.mp hm with h1 | h2
      · rcases List.mem_map.mp h1 with ⟨f, _, hf⟩
        exact SRecord.noConfusion hf
      · simp at h2
    · rw [connRecords, List.countP_append,
        countP_map_result_eq_zero isErrRecord (fun f => rfl) fs]
      simp [List.countP_cons, isErrRecord]
  | failed pre msg ok =>
    refine ⟨?_, ?_, ?_, ?_⟩
    · simp only [connRecords, isCompleted]
      constructor
      · intro hm
        exfalso
        rcases List.mem_append.mp hm with h1 | h2
        · rcases List.mem_map.mp h1 with ⟨f, _, hf⟩
          exact SRecord.noConfusion hf
        · cases ok with
          | true => simp at h2
          | false => simp at h2
      · intro hfalse
        exact absurd hfalse (by simp)
    · rw [connRecords, List.countP_append,
        countP_map_result_eq_zero isTermRecord (fun f => rfl) pre]
      cases ok with
      | true => simp [List.countP_cons, isTermRecord]
      | false => simp
    · intro m hm hterm
      rcases List.mem_append.mp hterm with h1 | h2
      · rcases List.mem_map.mp h1 with ⟨f, _, hf⟩
        exact SRecord.noConfusion hf
      · cases ok with
        | true => simp at h2
        | false => simp at h2
    · rw [connRecords, List.countP_append,
        countP_map_result_eq_zero isErrRecord (fun f => rfl) pre]
      cases ok with
      | true => simp [List.countP_cons, isErrRecord]
      | false => simp

theorem terminator_iff_completed_witness :
    (SRecord.term ∈ connRecords (ConnOutcome.failed [] [69] true)
        ↔ isCompleted (ConnOutcome.failed [] [69] true) = true)
    ∧ (connRecords (ConnOutcome.failed [] [69] true)).countP isTermRecord ≤ 1
    ∧ (∀ m, SRecord.err m ∈ connRecords (ConnOutcome.failed [] [69] true)
        → SRecord.term ∉ connRecords (ConnOutcome.failed [] [69] true))
    ∧ (connRecords (ConnOutcome.failed [] [69] true)).countP isErrRecord ≤ 1 :=
  terminator_iff_completed (ConnOutcome.failed [] [69] true)

/-- C2 counterexample: the fixed-width framing reads are single `recv`
calls. When the 4 name-length bytes arrive fragmented across TCP segments,
`ssock.recv(4)` returns only the first fragment (2 bytes here) — neither
the requested count nor a transport error — and the decoding loop then
misparses the stream: `int.from_bytes(b"\x00\x00")` is 0, so the loop
reports a successful end of transmission with data still unread. -/
theorem fixed_reads_can_return_short :
    (socketRecv 4 [[0, 0], [0, 6], [120]]).1 = [0, 0]
    ∧ (socketRecv 4 [[0, 0], [0, 6], [120]]).1.length ≠ 4
    ∧ clientLoop 1 [[0, 0], [0, 6], [120]] []
        = ⟨[], ClientOutcome.done, [[0, 6], [120]]⟩ := by
  refine ⟨rfl, by decide, ?_⟩
  rfl

/-- C2 as amended: only the payload-receive loops read an exact byte count —
when the loop returns, the data has exactly the requested length, and a
stream that is already closed (no bytes left) makes a nonzero-size read
fail with `ConnectionError` (`none`) instead of returning short data. -/
theorem payload_loop_exact_or_closed :
    (∀ (r : Nat) (s : ChunkStream) (d : List Nat) (s' : ChunkStream),
        recvFileLoop r r s = some (d, s') → d.length = r)
    ∧ (∀ r : Nat, recvFileLoop (r + 1) (r + 1) ([] : ChunkStream) = none) := by
  constructor
  · intro r s d s' h
    exact recvFileLoop_length r r s d s' le_rfl h
  · intro r
    rw [recvFileLoop]
    simp [socketRecv]

theorem payload_loop_exact_or_closed_witness :
    ([1, 2, 3] : List Nat).length = 3 :=
  payload_loop_exact_or_closed.1 3 [[1, 2, 3]] [1, 2, 3] [] (by rfl)

/-- Which handler invocation `handle_client` makes, given the conversion
type and the `|`-split metadata fields (server.py):
`if conversion == 'img_resize' and len(parts) >= 5:
   width, height = int(parts[3]), int(parts[4]);
   handle_resize(input_path, temp_dir, width, height)
 else: conversion_handlers[conversion](input_path, temp_dir)`.
The width/height fields are kept as the raw strings passed to `int()`. -/
inductive HandlerCall where
  | resizeWH (width height : String)
  | plain (conversion : String)
deriving DecidableEq, Repr

/-- The dispatch decision of server.py lines 128-133. -/
def dispatchCall (conversion : String) (parts : List String) : HandlerCall :=
  if conversion = "img_resize" ∧ 5 ≤ parts.length then
    .resizeWH (parts.getD 3 "") (parts.getD 4 "")
  else .plain conversion

/-- Modelled from the spec: extras are interpreted only when
`conversion_type == "img_resize"` and EXACTLY two extras are present
(metadata has exactly 5 fields); in every other case the handler is
invoked without width/height. Stated for comparison with `dispatchCall`. -/
def specDispatchCall (conversion : String) (parts : List String) : HandlerCall :=
  if conversion = "img_resize" ∧ parts.length = 5 then
    .resizeWH (parts.getD 3 "") (parts.getD 4 "")
  else .plain conversion

/-- C5 counterexample: with THREE extras (six metadata fields) the code
still interprets the first two extras as width/height, while the claim
says extras are interpreted only when exactly two are present. -/
theorem dispatch_extras_counterexample :
    dispatchCall "img_resize" ["a.png", "img_resize", "10", "400", "300", "9"]
        = HandlerCall.resizeWH "400" "300"
    ∧ specDispatchCall "img_resize" ["a.png", "img_resize", "10", "400", "300", "9"]
        = HandlerCall.plain "img_resize" := by
  constructor
  · rfl
  · rfl

/-- C5 as amended: for a request whose metadata fields are
`name | conv | size | extras...`, the extra parameters are interpreted
(as the width/height strings handed to `int()`) exactly when the
conversion type is `img_resize` and AT LEAST two extras are present — the
first two extras are used and any further ones are ignored; in every other
case the handler is invoked without width/height. -/
theorem dispatch_extras_amended (name conv size : String) (extras : List String) :
    ((∃ w h, dispatchCall conv (name :: conv :: size :: extras) = HandlerCall.resizeWH w h)
      ↔ (conv = "img_resize" ∧ 2 ≤ extras.length))
    ∧ (dispatchCall conv (name :: conv :: size :: extras)
          = HandlerCall.resizeWH (extras.getD 0 "") (extras.getD 1 "")
       ∨ dispatchCall conv (name :: conv :: size :: extras) = HandlerCall.plain conv) := by
  unfold dispatchCall
  have hlen : (name :: conv :: size :: extras).length = extras.length + 3 := by simp
  by_cases hc : conv = "img_resize" ∧ 5 ≤ (name :: conv :: size :: extras).length
  · rw [if_pos hc]
    have h2 : 2 ≤ extras.length := by
      have := hc.2
      rw [hlen] at this
      omega
    refine ⟨⟨fun _ => ⟨hc.1, h2⟩, fun _ => ⟨_, _, rfl⟩⟩, Or.inl rfl⟩
  · rw [if_neg hc]
    refine ⟨⟨fun hex => ?_, fun hcon => ?_⟩, Or.inr rfl⟩
    · obtain ⟨w, h, hwh⟩ := hex
      exact HandlerCall.noConfusion hwh
    · exfalso
      apply hc
      refine ⟨hcon.1, ?_⟩
      rw [hlen]
      omega

theorem dispatch_extras_amended_witness :
    ((∃ w h, dispatchCall "img_resize" ["a.png", "img_resize", "10", "400", "300"]
        = HandlerCall.resizeWH w h)
      ↔ ("img_resize" = "img_resize" ∧ 2 ≤ (["400", "300"] : List String).length))
    ∧ (dispatchCall "img_resize" ["a.png", "img_resize", "10", "400", "300"]
          = HandlerCall.resizeWH ((["400", "300"] : List String).getD 0 "")
              ((["400", "300"] : List String).getD 1 "")
       ∨ dispatchCall "img_resize" ["a.png", "img_resize", "10", "400", "300"]
          = HandlerCall.plain "img_resize") :=
  dispatch_extras_amended "a.png" "img_resize" "10" ["400", "300"]

/-- The metadata string built by `ConversionClient.send_request`:
`f"{file_name}|{conversion_type}|{file_size}"` plus `f"|{value}"` for each
extra parameter value. -/
def requestMetadata (fileName conversionType : String) (fileSize : Nat)
    (extraValues : List String) : String :=
  extraValues.foldl (fun m v => m ++ "|" ++ v)
    (fileName ++ "|" ++ conversionType ++ "|" ++ toString fileSize)

/-- The bytes the client puts on the wire for a request:
`len(metadata).to_bytes(4, 'big')` — the CHARACTER count — followed by
`metadata.encode()` — the UTF-8 bytes — followed by the raw file bytes. -/
def requestBytes (metadata : String) (fileBytes : List Nat) : List Nat :=
  toBytesBE 4 metadata.length ++ utf8Encode metadata ++ fileBytes

/-- The server's metadata read (server.py lines 96-99):
`metadata_len = int.from_bytes(conn.recv(4), 'big');
 metadata = conn.recv(metadata_len)`. Returns the metadata bytes read and
the rest of the stream (the file payload position). -/
def serverReadMetadata (s : ChunkStream) : List Nat × ChunkStream :=
  let p := socketRecv 4 s
  let q := socketRecv (fromBytesBE p.1) p.2
  (q.1, q.2)

/-- C7 counterexample: for a non-ASCII file name the 4-byte prefix carries
the CHARACTER count of the metadata, not its encoded byte count — for
`é.png` the prefix says 15 but 16 bytes follow — so the server's read of
`L` bytes does not consume the metadata exactly (the final byte of the
metadata is left to be read as file payload). -/
theorem metadata_length_counterexample :
    (requestMetadata "é.png" "png2jpg" 3 []).length = 15
    ∧ (utf8Encode (requestMetadata "é.png" "png2jpg" 3 [])).length = 16
    ∧ (serverReadMetadata
        (ofBytes (requestBytes (requestMetadata "é.png" "png2jpg" 3 []) [7, 7]))).1
        ≠ utf8Encode (requestMetadata "é.png" "png2jpg" 3 []) := by
  refine ⟨by decide, by decide, by decide⟩

/-- C7 as amended: the 4-byte prefix `L` equals the CHARACTER count of the
metadata string; when the metadata is pure ASCII (true of every registered
conversion type, the decimal size, and ASCII file names) this equals the
encoded byte count, and then the server's read of `L` bytes consumes
exactly the metadata and nothing of the file payload. -/
theorem metadata_length_ascii (m : String) (fileBytes : List Nat)
    (hascii : ∀ ch ∈ m.data, ch.toNat < 128) (hlen : m.length < 256 ^ 4) :
    m.length = (utf8Encode m).length
    ∧ serverReadMetadata (ofBytes (requestBytes m fileBytes))
        = (utf8Encode m, ofBytes fileBytes) := by
  have heq : (utf8Encode m).length = m.length := utf8Encode_length_of_ascii m hascii
  refine ⟨heq.symm, ?_⟩
  unfold serverReadMetadata requestBytes
  simp only [socketRecv_ofBytes, List.append_assoc]
  rw [take_append_of_length _ _ 4 (length_toBytesBE 4 m.length)]
  rw [drop_append_of_length _ _ 4 (length_toBytesBE 4 m.length)]
  rw [fromBytesBE_toBytesBE 4 m.length hlen]
  rw [take_append_of_length _ _ m.length heq]
  rw [drop_append_of_length _ _ m.length heq]

theorem metadata_length_ascii_witness :
    (∀ ch ∈ ("a.png|png2jpg|3" : String).data, ch.toNat < 128)
    ∧ ("a.png|png2jpg|3" : String).length < 256 ^ 4
    ∧ (("a.png|png2jpg|3" : String).length = (utf8Encode "a.png|png2jpg|3").length
       ∧ serverReadMetadata (ofBytes (requestBytes "a.png|png2jpg|3" [1, 2]))
          = (utf8Encode "a.png|png2jpg|3", ofBytes [1, 2])) :=
  ⟨by decide, by decide,
    metadata_length_ascii "a.png|png2jpg|3" [1, 2] (by decide) (by decide)⟩

/-- Index of the last `.` in a character list, if any. -/
def lastDot : List Char → Option Nat
  | [] => none
  | c :: rest =>
    match lastDot rest with
    | some i => some (i + 1)
    | none => if c = '.' then some 0 else none

/-- `os.path.splitext` for a plain basename (no directory separators, the
only shape it is applied to here): split at the last dot unless every
character before it is also a dot. -/
def splitext (s : String) : String × String :=
  match lastDot s.data with
  | none => (s, "")
  | some i =>
    if (s.data.take i).any (fun c => c != '.') then
      (String.mk (s.data.take i), String.mk (s.data.drop i))
    else (s, "")

/-- client.py: `unique_file_name = f"{base_name}_{timestamp}{ext}"` where
`timestamp = datetime.now().strftime("%Y%m%d_%H%M%S")` — a SECOND-resolution
clock value captured once per `send_request` call. -/
def uniqueFileName (fileName timestamp : String) : String :=
  (splitext fileName).1 ++ "_" ++ timestamp ++ (splitext fileName).2

/-- First character is `/`? -/
def headIsSlash : List Char → Bool
  | [] => false
  | c :: _ => c == '/'

/-- Last character is `/`? -/
def lastIsSlash (cs : List Char) : Bool :=
  headIsSlash cs.reverse

/-- POSIX `os.path.join(a, b)`: `b` if `b` is absolute, otherwise `a`
joined to `b` with a separator unless `a` is empty or already ends in
one. -/
def osPathJoin (a b : String) : String :=
  if headIsSlash b.data then b
  else if a = "" ∨ lastIsSlash a.data then a ++ b
  else a ++ "/" ++ b

/-- client.py: `output_dir = os.path.join(os.getcwd(), 'converted_files')`,
`output_path = os.path.join(output_dir, unique_file_name)`. -/
def clientOutputPath (cwd serverName timestamp : String) : String :=
  osPathJoin (osPathJoin cwd "converted_files") (uniqueFileName serverName timestamp)

/-- server.py: `input_path = os.path.join(temp_dir, file_name)` with the
client-supplied `file_name` used unmodified. -/
def serverInputPath (tempDir fileName : String) : String :=
  osPathJoin tempDir fileName

/-- Split a path into its `/`-separated components. -/
def splitSlashAux : List Char → List Char → List String
  | [], cur => [String.mk cur.reverse]
  | c :: rest, cur =>
    if c = '/' then String.mk cur.reverse :: splitSlashAux rest []
    else splitSlashAux rest (c :: cur)

/-- Resolve `.`, `..` and empty components of an absolute path. -/
def resolveComponents (comps : List String) : List String :=
  comps.foldl
    (fun acc comp =>
      if comp = "" ∨ comp = "." then acc
      else if comp = ".." then acc.dropLast
      else acc ++ [comp]) []

/-- The normalized component list of a path. -/
def resolvedPath (p : String) : List String :=
  resolveComponents (splitSlashAux p.data [])

/-- Does `p` resolve to a location inside directory `dir`? -/
def isUnderDir (dir p : String) : Bool :=
  (resolvedPath dir).isPrefixOf (resolvedPath p)

/-- C6: the "unique" local output name is a pure function of the result
file's name and the second-resolution timestamp — evaluated here at the
failing input `converted.jpg` / `20260101_120000`: any two `send_request`
calls whose timestamps fall in the same clock second map a same-named
result to this same path, so the second call overwrites the first. -/
theorem client_output_name_collision :
    uniqueFileName "converted.jpg" "20260101_120000" = "converted_20260101_120000.jpg"
    ∧ clientOutputPath "/home/user" "converted.jpg" "20260101_120000"
        = "/home/user/converted_files/converted_20260101_120000.jpg" := by
  refine ⟨by decide, by decide⟩

/-- C10: the server joins its per-connection scratch directory with the
client-supplied `file_name` unmodified, so a `file_name` containing `..`
components (or an absolute path) places the uploaded payload outside the
connection's private scratch directory, while an ordinary name stays
inside it. -/
theorem scratch_path_escape :
    serverInputPath "/tmp/scratch_conn1" "input.png" = "/tmp/scratch_conn1/input.png"
    ∧ isUnderDir "/tmp/scratch_conn1"
        (serverInputPath "/tmp/scratch_conn1" "input.png") = true
    ∧ serverInputPath "/tmp/scratch_conn1" "../../etc/passwd"
        = "/tmp/scratch_conn1/../../etc/passwd"
    ∧ resolvedPath (serverInputPath "/tmp/scratch_conn1" "../../etc/passwd")
        = ["etc", "passwd"]
    ∧ isUnderDir "/tmp/scratch_conn1"
        (serverInputPath "/tmp/scratch_conn1" "../../etc/passwd") = false
    ∧ serverInputPath "/tmp/scratch_conn1" "/etc/passwd" = "/etc/passwd" := by
  refine ⟨by decide, by decide, by decide, by decide, by decide, by decide⟩
